import Mathlib

/-!
Verification of the SMTP `DATA` dot-stuffing decoder (`data.go`).

The Go source is shallowly embedded as follows:

* `SMTPError`, `ErrDataTooLarge`, `ErrDataTimeout` mirror the error values.
* The underlying connection (`r.c.text.R.ReadByte` plus
  `r.c.conn.SetReadDeadline`) is modelled as a list of `SrcItem`s consumed one
  per single-byte read: a successful byte, or an I/O failure (`io.EOF`, a
  `net.Error` whose `Timeout()` is true, or any other error, kept abstract as
  a tag).  An exhausted list behaves as `io.EOF`, matching a closed stream.
* `dataReader.Read`'s state machine (`stateBeginLine` .. `stateEOF`) becomes
  the inductive `RState` with the pure `transition` function; the read loop
  becomes `fillLoop`, and `Read` wraps it with the size-limit bookkeeping,
  exactly following the Go control flow.
* Side effects that the claims talk about (arming a read deadline, a
  single-byte read attempt, the diagnostic log on timeout) are recorded in an
  `Event` trace.
* Go `int`/`int64` values (`MaxMessageBytes`, `n`, `ReadTimeout`) are `Int`;
  no arithmetic here can overflow 64 bits (`n` only ever decreases, by at
  most its own positive value).  Bytes are `Nat` (0..255 in any real run,
  nothing depends on the bound).
-/

namespace GoSmtp

/-- `EnhancedCode [3]int` from the source. -/
structure EnhancedCode where
  a : Int
  b : Int
  c : Int
deriving DecidableEq, Repr

/-- `SMTPError` from the source: code, enhanced code and message. -/
structure SMTPError where
  Code : Int
  Enhanced : EnhancedCode
  Message : String
deriving DecidableEq, Repr

/-- `func (err *SMTPError) Temporary() bool { return err.Code/100 == 4 }`.
Go's `/` on `int` truncates toward zero, i.e. `Int.tdiv`. -/
def SMTPError.Temporary (err : SMTPError) : Bool :=
  Int.tdiv err.Code 100 == 4

/-- `ErrDataTooLarge` from the source (552, 5.3.4). -/
def ErrDataTooLarge : SMTPError :=
  { Code := 552, Enhanced := ⟨5, 3, 4⟩, Message := "Maximum message size exceeded" }

/-- `ErrDataTimeout` from the source (451, 4.4.2). -/
def ErrDataTimeout : SMTPError :=
  { Code := 451, Enhanced := ⟨4, 4, 2⟩, Message := "Timeout waiting for data from client" }

/-! ## The byte source

`r.c.text.R.ReadByte()` yields one byte per call, or fails.  The stream of
results the source will deliver is modelled as a list, consumed front to
back; an exhausted list behaves like Go's `bufio` reader on a closed
stream, i.e. `io.EOF`. -/

/-- The failure modes of a single-byte read: `io.EOF`, a `net.Error` whose
`Timeout()` reports true, or any other error (kept abstract as a tag). -/
inductive IOFailure
  | eof
  | timeout
  | other (tag : Nat)
deriving DecidableEq, Repr

/-- One result the underlying byte source will deliver. -/
inductive SrcItem
  | byte (c : Nat)
  | ioFail (e : IOFailure)
deriving DecidableEq, Repr

/-- A pure byte stream, as source items. -/
def toSrc (bs : List Nat) : List SrcItem :=
  bs.map SrcItem.byte

/-- The error values `dataReader.Read` can return to its caller. -/
inductive RErr
  | dataTooLarge  -- `ErrDataTooLarge`
  | dataTimeout   -- `ErrDataTimeout`
  | eofSignal     -- `io.EOF`, normal end of the decoded stream
  | unexpectedEOF -- `io.ErrUnexpectedEOF`
  | otherErr (tag : Nat) -- any other error, propagated unchanged
deriving DecidableEq, Repr

/-- Observable side effects of one `Read` call, in order: arming a read
deadline (`SetReadDeadline`), attempting a single-byte read (`ReadByte`),
and the diagnostic log emitted on a read timeout (`ErrorLog.Printf`). -/
inductive Event
  | armDeadline
  | readByte
  | logTimeout
deriving DecidableEq, Repr

/-- The error conversion in the read-failure branch of `dataReader.Read`:
`io.EOF` becomes `io.ErrUnexpectedEOF`; a `net.Error` with `Timeout()`
is logged once and becomes `ErrDataTimeout`; anything else is returned
unchanged.  Second component: the log events this branch produces. -/
def errConvert : IOFailure → RErr × List Event
  | .eof => (.unexpectedEOF, [])
  | .timeout => (.dataTimeout, [.logTimeout])
  | .other tag => (.otherErr tag, [])

/-! ## The decoder -/

/-- The state constants of the dot-stuffing machine in `dataReader.Read`
(`stateBeginLine` .. `stateEOF`). -/
inductive RState
  | beginLine -- beginning of line; initial state
  | dot       -- read . at beginning of line
  | dotCR     -- read .\r at beginning of line
  | cr        -- read \r (possibly at end of line)
  | data      -- reading data in middle of line
  | eof       -- reached .\r\n end marker line
deriving DecidableEq, Repr

def dotByte : Nat := 46
def crByte : Nat := 13
def lfByte : Nat := 10

/-- One step of the switch inside `dataReader.Read`'s loop: given the current
state and the byte just read, the next state and whether the byte is written
to the output buffer (`b[n] = c; n++`) or suppressed (`continue`).  The
`eof` row mirrors Go's switch falling through with no matching case (the
loop never runs in that state). -/
def transition : RState → Nat → RState × Bool
  | .beginLine, c => if c = dotByte then (.dot, false) else (.data, true)
  | .dot, c =>
      if c = crByte then (.dotCR, false)
      else if c = lfByte then (.eof, false)
      else (.data, true)
  | .dotCR, c => if c = lfByte then (.eof, false) else (.data, true)
  | .cr, c => if c = lfByte then (.beginLine, true) else (.data, true)
  | .data, c =>
      if c = crByte then (.cr, true)
      else if c = lfByte then (.beginLine, true)
      else (.data, true)
  | .eof, _ => (.eof, true)

/-- The configuration `dataReader` consults through `r.c.server`. -/
structure Server where
  MaxMessageBytes : Int
  ReadTimeout : Int
deriving DecidableEq, Repr

/-- `dataReader` from the source; the connection itself is externalized into
the `Server` configuration and the `SrcItem` list passed to `Read`. -/
structure dataReader where
  state : RState
  limited : Bool
  n : Int
deriving DecidableEq, Repr

/-- `newDataReader`: `limited`/`n` are set only when `MaxMessageBytes > 0`
(`n` keeps Go's zero value otherwise). -/
def newDataReader (server : Server) : dataReader :=
  if server.MaxMessageBytes > 0 then
    { state := .beginLine, limited := true, n := server.MaxMessageBytes }
  else
    { state := .beginLine, limited := false, n := 0 }

/-- Result of the fill loop: bytes written to the buffer (in order), the
loop's `err` variable on exit, the machine state, the unconsumed source,
and the trace of side effects. -/
structure FillOut where
  emitted : List Nat
  err : Option RErr
  state : RState
  src : List SrcItem
  events : List Event
deriving DecidableEq, Repr

/-- Events of one loop iteration up to the read: the deadline is armed
exactly when `ReadTimeout != 0`, then the single-byte read happens. -/
def armRead (tc : Bool) : List Event :=
  (if tc then [Event.armDeadline] else []) ++ [Event.readByte]

/-- The loop `for n < len(b) && r.state != stateEOF { ... }` of
`dataReader.Read`.  `tc` is whether a read timeout is configured, `k` the
remaining buffer capacity (`len(b) - n`). -/
def fillLoop (tc : Bool) (k : Nat) (st : RState) (src : List SrcItem) : FillOut :=
  match src with
  | [] =>
      if k = 0 ∨ st = .eof then ⟨[], none, st, [], []⟩
      else ⟨[], some (errConvert .eof).1, st, [], armRead tc ++ (errConvert .eof).2⟩
  | item :: rest =>
      if k = 0 ∨ st = .eof then ⟨[], none, st, item :: rest, []⟩
      else
        match item with
        | .ioFail e => ⟨[], some (errConvert e).1, st, rest, armRead tc ++ (errConvert e).2⟩
        | .byte c =>
            if (transition st c).2 then
              let o := fillLoop tc (k - 1) (transition st c).1 rest
              ⟨c :: o.emitted, o.err, o.state, o.src, armRead tc ++ o.events⟩
            else
              let o := fillLoop tc k (transition st c).1 rest
              ⟨o.emitted, o.err, o.state, o.src, armRead tc ++ o.events⟩

/-- Result of one `Read` call: bytes written, returned error (`none` = nil),
the updated reader, the unconsumed source, and the event trace. -/
structure ReadOut where
  emitted : List Nat
  err : Option RErr
  reader : dataReader
  src : List SrcItem
  events : List Event
deriving DecidableEq, Repr

/-- `func (r *dataReader) Read(b []byte) (n int, err error)`, with `blen` the
length of the caller's buffer `b` and `src` what the connection will
deliver.  Follows the Go control flow exactly: the size-limit short circuit
and buffer truncation, the fill loop, the `io.EOF` promotion when the
terminator state was reached without error, and the `r.n` decrement. -/
def Read (server : Server) (r : dataReader) (blen : Nat) (src : List SrcItem) :
    ReadOut :=
  if r.limited ∧ r.n ≤ 0 then
    ⟨[], some .dataTooLarge, r, src, []⟩
  else
    let cap : Nat := if r.limited ∧ (blen : Int) > r.n then r.n.toNat else blen
    let o := fillLoop (server.ReadTimeout != 0) cap r.state src
    let err : Option RErr :=
      if o.err = none ∧ o.state = .eof then some .eofSignal else o.err
    let n' : Int := if r.limited then r.n - o.emitted.length else r.n
    ⟨o.emitted, err, ⟨o.state, r.limited, n'⟩, o.src, o.events⟩

/-- Drive `Read` the way `io.ReadAll` does: call it repeatedly until it
returns a non-nil error, concatenating outputs.  `fuel` bounds the number of
calls (any `fuel > src.length` is enough, since an errorless `Read` with a
nonempty buffer consumes source items). -/
def readAll (server : Server) (blen : Nat) :
    Nat → dataReader → List SrcItem → List Nat × Option RErr
  | 0, _, _ => ([], none)
  | fuel + 1, r, src =>
      let o := Read server r blen src
      match o.err with
      | some e => (o.emitted, some e)
      | none =>
          let p := readAll server blen fuel o.reader o.src
          (o.emitted ++ p.1, p.2)

/-- Reference run: the fill loop with unbounded buffer capacity, used to
state how successive bounded `Read` calls compose. -/
structure RunOut where
  emitted : List Nat
  err : Option RErr
  state : RState
  src : List SrcItem
deriving DecidableEq, Repr

/-- The fill loop with no capacity bound: consume the source until the
terminator state, a read failure, or exhaustion (which reads as `io.EOF`). -/
def runLoop (st : RState) (src : List SrcItem) : RunOut :=
  match src with
  | [] =>
      if st = .eof then ⟨[], none, st, []⟩
      else ⟨[], some (errConvert .eof).1, st, []⟩
  | item :: rest =>
      if st = .eof then ⟨[], none, st, item :: rest⟩
      else
        match item with
        | .ioFail e => ⟨[], some (errConvert e).1, st, rest⟩
        | .byte c =>
            let o := runLoop (transition st c).1 rest
            ⟨(if (transition st c).2 then [c] else []) ++ o.emitted, o.err, o.state, o.src⟩

/-! ## Specification-side line vocabulary

These definitions follow the spec's wording (RFC 5321 dot-stuffing), to be
compared with the machine above: a message line is CR/LF-free content plus
CRLF; the sender escapes a line whose content starts with a dot by
prefixing one more dot; the decoder is meant to remove one leading dot. -/

/-- Content bytes of a message line: no CR, no LF. -/
def crlfFree (content : List Nat) : Prop :=
  ∀ c ∈ content, c ≠ crByte ∧ c ≠ lfByte

instance (content : List Nat) : Decidable (crlfFree content) :=
  List.decidableBAll _ content

/-- A wire line: content followed by CRLF. -/
def mkLine (content : List Nat) : List Nat :=
  content ++ [crByte, lfByte]

/-- Modelled from the spec: sender-side dot-stuffing of one line's content
("prefixing an extra `.` to each line beginning with `.`"). -/
def stuff (content : List Nat) : List Nat :=
  match content with
  | [] => []
  | c :: t => if c = dotByte then dotByte :: c :: t else c :: t

/-- Removing one leading dot from a line's content (what decoding a
dot-stuffed line should produce). -/
def unstuff (content : List Nat) : List Nat :=
  match content with
  | [] => []
  | c :: t => if c = dotByte then t else c :: t

/-- The decoded form of the wire line with the given content. -/
def decodedLine (content : List Nat) : List Nat :=
  unstuff content ++ [crByte, lfByte]

/-- The terminator line `.\r\n`. -/
def termLine : List Nat := [dotByte, crByte, lfByte]

/-- Is the event a deadline arming or a read attempt (used to state that a
deadline is armed before every read)? -/
def armOrRead (e : Event) : Bool :=
  e == .armDeadline || e == .readByte

/-! ## Basic lemmas about the loop -/

theorem toSrc_append (a b : List Nat) : toSrc (a ++ b) = toSrc a ++ toSrc b := by
  simp [toSrc]

theorem runLoop_state_eof (src : List SrcItem) :
    runLoop .eof src = ⟨[], none, .eof, src⟩ := by
  cases src <;> simp [runLoop]

theorem fillLoop_state_eof (tc : Bool) (k : Nat) (src : List SrcItem) :
    fillLoop tc k .eof src = ⟨[], none, .eof, src, []⟩ := by
  cases src <;> simp [fillLoop]

theorem fillLoop_cap_zero (tc : Bool) (st : RState) (src : List SrcItem) :
    fillLoop tc 0 st src = ⟨[], none, st, src, []⟩ := by
  cases src <;> simp [fillLoop]

theorem transition_emit_ne_eof (st : RState) (c : Nat) (hst : st ≠ .eof)
    (h : (transition st c).2 = true) : (transition st c).1 ≠ .eof := by
  cases st <;>
    first
      | exact absurd rfl hst
      | (simp only [transition] at h ⊢; split_ifs at h ⊢ <;> simp_all)

theorem fillLoop_src_length (tc : Bool) :
    ∀ (src : List SrcItem) (k : Nat) (st : RState),
      (fillLoop tc k st src).src.length ≤ src.length := by
  intro src
  induction src with
  | nil =>
      intro k st
      simp only [fillLoop]
      split <;> simp
  | cons item rest ih =>
      intro k st
      cases item with
      | ioFail e =>
          simp only [fillLoop]
          split <;> simp
      | byte c =>
          simp only [fillLoop]
          split
          · simp
          · split <;>
              · dsimp only
                exact Nat.le_succ_of_le (ih _ _)

theorem fillLoop_emitted_length (tc : Bool) :
    ∀ (src : List SrcItem) (k : Nat) (st : RState),
      (fillLoop tc k st src).emitted.length ≤ k := by
  intro src
  induction src with
  | nil =>
      intro k st
      simp only [fillLoop]
      split <;> simp
  | cons item rest ih =>
      intro k st
      cases item with
      | ioFail e =>
          simp only [fillLoop]
          split <;> simp
      | byte c =>
          simp only [fillLoop]
          split
          · simp
          · rename_i hguard
            split
            · have hk : k ≠ 0 := fun h => hguard (Or.inl h)
              have := ih (k - 1) (transition st c).1
              dsimp only
              simp only [List.length_cons]
              omega
            · dsimp only
              exact ih k (transition st c).1

/-! ## Step equations for the two loops -/

theorem fillLoop_guard (tc : Bool) (k : Nat) (st : RState) (src : List SrcItem)
    (h : k = 0 ∨ st = .eof) : fillLoop tc k st src = ⟨[], none, st, src, []⟩ := by
  cases src <;> (simp only [fillLoop]; rw [if_pos h])

theorem fillLoop_nil (tc : Bool) (k : Nat) (st : RState)
    (h : ¬(k = 0 ∨ st = .eof)) :
    fillLoop tc k st [] = ⟨[], some .unexpectedEOF, st, [], armRead tc⟩ := by
  simp only [fillLoop]
  rw [if_neg h]
  simp [errConvert]

theorem fillLoop_fail (tc : Bool) (k : Nat) (st : RState) (e : IOFailure)
    (rest : List SrcItem) (h : ¬(k = 0 ∨ st = .eof)) :
    fillLoop tc k st (.ioFail e :: rest) =
      ⟨[], some (errConvert e).1, st, rest, armRead tc ++ (errConvert e).2⟩ := by
  simp only [fillLoop]
  rw [if_neg h]

theorem fillLoop_emit (tc : Bool) (k : Nat) (st : RState) (c : Nat)
    (rest : List SrcItem) (h : ¬(k = 0 ∨ st = .eof))
    (he : (transition st c).2 = true) :
    fillLoop tc k st (.byte c :: rest) =
      ⟨c :: (fillLoop tc (k - 1) (transition st c).1 rest).emitted,
        (fillLoop tc (k - 1) (transition st c).1 rest).err,
        (fillLoop tc (k - 1) (transition st c).1 rest).state,
        (fillLoop tc (k - 1) (transition st c).1 rest).src,
        armRead tc ++ (fillLoop tc (k - 1) (transition st c).1 rest).events⟩ := by
  simp only [fillLoop]
  rw [if_neg h, if_pos he]

theorem fillLoop_suppress (tc : Bool) (k : Nat) (st : RState) (c : Nat)
    (rest : List SrcItem) (h : ¬(k = 0 ∨ st = .eof))
    (he : (transition st c).2 = false) :
    fillLoop tc k st (.byte c :: rest) =
      ⟨(fillLoop tc k (transition st c).1 rest).emitted,
        (fillLoop tc k (transition st c).1 rest).err,
        (fillLoop tc k (transition st c).1 rest).state,
        (fillLoop tc k (transition st c).1 rest).src,
        armRead tc ++ (fillLoop tc k (transition st c).1 rest).events⟩ := by
  simp only [fillLoop]
  rw [if_neg h, if_neg (by simp [he])]

theorem runLoop_nil (st : RState) (h : st ≠ .eof) :
    runLoop st [] = ⟨[], some .unexpectedEOF, st, []⟩ := by
  simp only [runLoop]
  rw [if_neg h]
  simp [errConvert]

theorem runLoop_fail (st : RState) (e : IOFailure) (rest : List SrcItem)
    (h : st ≠ .eof) :
    runLoop st (.ioFail e :: rest) = ⟨[], some (errConvert e).1, st, rest⟩ := by
  simp only [runLoop]
  rw [if_neg h]

theorem runLoop_emit (st : RState) (c : Nat) (rest : List SrcItem)
    (h : st ≠ .eof) (he : (transition st c).2 = true) :
    runLoop st (.byte c :: rest) =
      ⟨c :: (runLoop (transition st c).1 rest).emitted,
        (runLoop (transition st c).1 rest).err,
        (runLoop (transition st c).1 rest).state,
        (runLoop (transition st c).1 rest).src⟩ := by
  simp only [runLoop]
  rw [if_neg h, he]
  simp

theorem runLoop_suppress (st : RState) (c : Nat) (rest : List SrcItem)
    (h : st ≠ .eof) (he : (transition st c).2 = false) :
    runLoop st (.byte c :: rest) =
      ⟨(runLoop (transition st c).1 rest).emitted,
        (runLoop (transition st c).1 rest).err,
        (runLoop (transition st c).1 rest).state,
        (runLoop (transition st c).1 rest).src⟩ := by
  simp only [runLoop]
  rw [if_neg h, he]
  simp

/-! ## The bounded loop refines the unbounded one -/

theorem fillLoop_runLoop_of_err_none (tc : Bool) :
    ∀ (src : List SrcItem) (k : Nat) (st : RState),
      (fillLoop tc k st src).err = none →
      runLoop st src =
        ⟨(fillLoop tc k st src).emitted ++
            (runLoop (fillLoop tc k st src).state (fillLoop tc k st src).src).emitted,
          (runLoop (fillLoop tc k st src).state (fillLoop tc k st src).src).err,
          (runLoop (fillLoop tc k st src).state (fillLoop tc k st src).src).state,
          (runLoop (fillLoop tc k st src).state (fillLoop tc k st src).src).src⟩ := by
  intro src
  induction src with
  | nil =>
      intro k st h
      by_cases hguard : k = 0 ∨ st = .eof
      · rw [fillLoop_guard tc k st [] hguard]
        simp
      · rw [fillLoop_nil tc k st hguard] at h
        simp at h
  | cons item rest ih =>
      intro k st h
      by_cases hguard : k = 0 ∨ st = .eof
      · rw [fillLoop_guard tc k st (item :: rest) hguard]
        simp
      · have hst : st ≠ .eof := fun hh => hguard (Or.inr hh)
        cases item with
        | ioFail e =>
            rw [fillLoop_fail tc k st e rest hguard] at h
            simp at h
        | byte c =>
            cases he : (transition st c).2 with
            | true =>
                rw [fillLoop_emit tc k st c rest hguard he] at h ⊢
                dsimp only at h ⊢
                rw [runLoop_emit st c rest hst he, ih _ _ h]
                simp
            | false =>
                rw [fillLoop_suppress tc k st c rest hguard he] at h ⊢
                dsimp only at h ⊢
                rw [runLoop_suppress st c rest hst he, ih _ _ h]

theorem fillLoop_runLoop_of_err_some (tc : Bool) :
    ∀ (src : List SrcItem) (k : Nat) (st : RState) (e : RErr),
      (fillLoop tc k st src).err = some e →
      runLoop st src =
        ⟨(fillLoop tc k st src).emitted, some e,
          (fillLoop tc k st src).state, (fillLoop tc k st src).src⟩ := by
  intro src
  induction src with
  | nil =>
      intro k st e h
      by_cases hguard : k = 0 ∨ st = .eof
      · rw [fillLoop_guard tc k st [] hguard] at h
        simp at h
      · have hst : st ≠ .eof := fun hh => hguard (Or.inr hh)
        rw [fillLoop_nil tc k st hguard] at h ⊢
        dsimp only at h ⊢
        rw [runLoop_nil st hst]
        simp_all
  | cons item rest ih =>
      intro k st e h
      by_cases hguard : k = 0 ∨ st = .eof
      · rw [fillLoop_guard tc k st (item :: rest) hguard] at h
        simp at h
      · have hst : st ≠ .eof := fun hh => hguard (Or.inr hh)
        cases item with
        | ioFail e' =>
            rw [fillLoop_fail tc k st e' rest hguard] at h ⊢
            dsimp only at h ⊢
            rw [runLoop_fail st e' rest hst]
            simp_all
        | byte c =>
            cases he : (transition st c).2 with
            | true =>
                rw [fillLoop_emit tc k st c rest hguard he] at h ⊢
                dsimp only at h ⊢
                rw [runLoop_emit st c rest hst he, ih _ _ _ h]
            | false =>
                rw [fillLoop_suppress tc k st c rest hguard he] at h ⊢
                dsimp only at h ⊢
                rw [runLoop_suppress st c rest hst he, ih _ _ _ h]

/-! ## Reaching the terminator state -/

theorem fillLoop_reach_eof (tc : Bool) :
    ∀ (src : List SrcItem) (k : Nat) (st : RState),
      st ≠ .eof → (fillLoop tc k st src).state = .eof →
      (fillLoop tc k st src).err = none ∧
        (fillLoop tc k st src).emitted.length < k := by
  intro src
  induction src with
  | nil =>
      intro k st hst h
      by_cases hguard : k = 0 ∨ st = .eof
      · rw [fillLoop_guard tc k st [] hguard] at h
        exact absurd h hst
      · rw [fillLoop_nil tc k st hguard] at h
        exact absurd h hst
  | cons item rest ih =>
      intro k st hst h
      by_cases hguard : k = 0 ∨ st = .eof
      · rw [fillLoop_guard tc k st (item :: rest) hguard] at h
        exact absurd h hst
      · have hk : k ≠ 0 := fun hh => hguard (Or.inl hh)
        cases item with
        | ioFail e =>
            rw [fillLoop_fail tc k st e rest hguard] at h
            exact absurd h hst
        | byte c =>
            cases he : (transition st c).2 with
            | true =>
                rw [fillLoop_emit tc k st c rest hguard he] at h ⊢
                dsimp only at h ⊢
                have hne := transition_emit_ne_eof st c hst he
                obtain ⟨h1, h2⟩ := ih (k - 1) (transition st c).1 hne h
                refine ⟨h1, ?_⟩
                simp only [List.length_cons]
                omega
            | false =>
                rw [fillLoop_suppress tc k st c rest hguard he] at h ⊢
                dsimp only at h ⊢
                by_cases hne : (transition st c).1 = .eof
                · rw [hne] at h ⊢
                  rw [fillLoop_state_eof]
                  refine ⟨rfl, ?_⟩
                  simp only [List.length_nil]
                  omega
                · obtain ⟨h1, h2⟩ := ih k (transition st c).1 hne h
                  exact ⟨h1, h2⟩

theorem fillLoop_progress (tc : Bool) (src : List SrcItem) (k : Nat) (st : RState)
    (hst : st ≠ .eof) (hk : k ≠ 0)
    (herr : (fillLoop tc k st src).err = none)
    (heof : (fillLoop tc k st src).state ≠ .eof) :
    (fillLoop tc k st src).src.length < src.length := by
  have hguard : ¬(k = 0 ∨ st = .eof) := by
    rintro (h | h)
    · exact hk h
    · exact hst h
  cases src with
  | nil =>
      rw [fillLoop_nil tc k st hguard] at herr
      simp at herr
  | cons item rest =>
      cases item with
      | ioFail e =>
          rw [fillLoop_fail tc k st e rest hguard] at herr
          cases e <;> simp [errConvert] at herr
      | byte c =>
          cases he : (transition st c).2 with
          | true =>
              rw [fillLoop_emit tc k st c rest hguard he]
              dsimp only
              have := fillLoop_src_length tc rest (k - 1) (transition st c).1
              simp only [List.length_cons]
              omega
          | false =>
              rw [fillLoop_suppress tc k st c rest hguard he]
              dsimp only
              have := fillLoop_src_length tc rest k (transition st c).1
              simp only [List.length_cons]
              omega

/-! ## Equations for `Read` -/

theorem Read_tooLarge (srv : Server) (r : dataReader) (blen : Nat)
    (src : List SrcItem) (hlim : r.limited = true) (hn : r.n ≤ 0) :
    Read srv r blen src = ⟨[], some .dataTooLarge, r, src, []⟩ := by
  simp only [Read]
  rw [if_pos ⟨hlim, hn⟩]

theorem Read_unlimited (srv : Server) (r : dataReader) (blen : Nat)
    (src : List SrcItem) (hlim : r.limited = false) :
    Read srv r blen src =
      ⟨(fillLoop (srv.ReadTimeout != 0) blen r.state src).emitted,
        if (fillLoop (srv.ReadTimeout != 0) blen r.state src).err = none ∧
            (fillLoop (srv.ReadTimeout != 0) blen r.state src).state = .eof then
          some .eofSignal
        else (fillLoop (srv.ReadTimeout != 0) blen r.state src).err,
        ⟨(fillLoop (srv.ReadTimeout != 0) blen r.state src).state, false, r.n⟩,
        (fillLoop (srv.ReadTimeout != 0) blen r.state src).src,
        (fillLoop (srv.ReadTimeout != 0) blen r.state src).events⟩ := by
  simp only [Read, hlim]
  simp

theorem Read_limited_pos (srv : Server) (r : dataReader) (blen : Nat)
    (src : List SrcItem) (hlim : r.limited = true) (hn : 0 < r.n) :
    Read srv r blen src =
      ⟨(fillLoop (srv.ReadTimeout != 0)
          (if (blen : Int) > r.n then r.n.toNat else blen) r.state src).emitted,
        if (fillLoop (srv.ReadTimeout != 0)
              (if (blen : Int) > r.n then r.n.toNat else blen) r.state src).err = none ∧
            (fillLoop (srv.ReadTimeout != 0)
              (if (blen : Int) > r.n then r.n.toNat else blen) r.state src).state = .eof then
          some .eofSignal
        else (fillLoop (srv.ReadTimeout != 0)
              (if (blen : Int) > r.n then r.n.toNat else blen) r.state src).err,
        ⟨(fillLoop (srv.ReadTimeout != 0)
            (if (blen : Int) > r.n then r.n.toNat else blen) r.state src).state, true,
          r.n - (fillLoop (srv.ReadTimeout != 0)
            (if (blen : Int) > r.n then r.n.toNat else blen) r.state src).emitted.length⟩,
        (fillLoop (srv.ReadTimeout != 0)
          (if (blen : Int) > r.n then r.n.toNat else blen) r.state src).src,
        (fillLoop (srv.ReadTimeout != 0)
          (if (blen : Int) > r.n then r.n.toNat else blen) r.state src).events⟩ := by
  simp only [Read, hlim]
  rw [if_neg (show ¬(True ∧ r.n ≤ 0) by rintro ⟨-, hh⟩; omega)]
  simp

/-! ## Driving `Read` to completion -/

theorem readAll_of_runLoop_eof (srv : Server) (k : Nat) (hk : 1 ≤ k) :
    ∀ (fuel : Nat) (r : dataReader) (src : List SrcItem) (E : List Nat)
      (s' : List SrcItem),
      r.limited = false → src.length < fuel →
      runLoop r.state src = ⟨E, none, .eof, s'⟩ →
      readAll srv k fuel r src = (E, some .eofSignal) := by
  intro fuel
  induction fuel with
  | zero =>
      intro r src E s' _ hlen _
      omega
  | succ fuel ih =>
      intro r src E s' hlim hlen hrun
      rw [readAll, Read_unlimited srv r k src hlim]
      dsimp only
      cases herr : (fillLoop (srv.ReadTimeout != 0) k r.state src).err with
      | some e =>
          have := fillLoop_runLoop_of_err_some (srv.ReadTimeout != 0) src k r.state e herr
          rw [hrun] at this
          simp at this
      | none =>
          have hdec := fillLoop_runLoop_of_err_none (srv.ReadTimeout != 0) src k r.state herr
          rw [hrun] at hdec
          by_cases hsteof : (fillLoop (srv.ReadTimeout != 0) k r.state src).state = .eof
          · rw [hsteof, runLoop_state_eof] at hdec
            simp only [RunOut.mk.injEq] at hdec
            obtain ⟨hE, -, -, -⟩ := hdec
            simp only [herr, hsteof, and_self, if_pos]
            simp [hE]
          · have hstr : r.state ≠ .eof := by
              intro hh
              rw [hh, fillLoop_state_eof] at hsteof
              exact hsteof rfl
            rw [if_neg (by simp [hsteof])]
            set f := fillLoop (srv.ReadTimeout != 0) k r.state src with hf
            have hX : (runLoop f.state f.src).err = none ∧
                (runLoop f.state f.src).state = .eof ∧
                (runLoop f.state f.src).src = s' ∧
                f.emitted ++ (runLoop f.state f.src).emitted = E := by
              have := hdec
              simp only [RunOut.mk.injEq] at this
              obtain ⟨h1, h2, h3, h4⟩ := this
              exact ⟨h2.symm, h3.symm, h4.symm, h1.symm⟩
            have hXeta : runLoop f.state f.src =
                ⟨(runLoop f.state f.src).emitted, none, .eof, s'⟩ := by
              cases hrl : runLoop f.state f.src
              have e1 := hX.1
              have e2 := hX.2.1
              have e3 := hX.2.2.1
              rw [hrl] at e1 e2 e3
              simp_all
            have hprog : f.src.length < src.length :=
              fillLoop_progress (srv.ReadTimeout != 0) src k r.state hstr
                (by omega) herr hsteof
            have hrec := ih ⟨f.state, false, r.n⟩ f.src
                (runLoop f.state f.src).emitted s' rfl (by omega) hXeta
            rw [hrec]
            simp [hX.2.2.2]

/-! ## Line-by-line behaviour of the unbounded loop -/

theorem transition_begin_dot : transition .beginLine dotByte = (.dot, false) := by
  simp [transition]

theorem transition_begin_other (c : Nat) (h : c ≠ dotByte) :
    transition .beginLine c = (.data, true) := by
  simp [transition, h]

theorem transition_dot_cr : transition .dot crByte = (.dotCR, false) := by
  simp [transition]

theorem transition_dot_other (c : Nat) (h1 : c ≠ crByte) (h2 : c ≠ lfByte) :
    transition .dot c = (.data, true) := by
  simp [transition, h1, h2]

theorem transition_dotCR_lf : transition .dotCR lfByte = (.eof, false) := by
  simp [transition]

theorem transition_cr_lf : transition .cr lfByte = (.beginLine, true) := by
  simp [transition]

theorem transition_data_byte_cr : transition .data crByte = (.cr, true) := by
  simp [transition]

theorem transition_data_other (c : Nat) (h1 : c ≠ crByte) (h2 : c ≠ lfByte) :
    transition .data c = (.data, true) := by
  simp [transition, h1, h2]

theorem transition_data_byte_lf : transition .data lfByte = (.beginLine, true) := by
  simp [transition, crByte, lfByte]

theorem runLoop_begin_dot (s : List SrcItem) :
    runLoop .beginLine (SrcItem.byte dotByte :: s) =
      ⟨(runLoop .dot s).emitted, (runLoop .dot s).err,
        (runLoop .dot s).state, (runLoop .dot s).src⟩ := by
  rw [runLoop_suppress .beginLine dotByte s (by simp)
        (by rw [transition_begin_dot]), transition_begin_dot]

theorem runLoop_begin_other (c : Nat) (s : List SrcItem) (h : c ≠ dotByte) :
    runLoop .beginLine (SrcItem.byte c :: s) =
      ⟨c :: (runLoop .data s).emitted, (runLoop .data s).err,
        (runLoop .data s).state, (runLoop .data s).src⟩ := by
  rw [runLoop_emit .beginLine c s (by simp)
        (by rw [transition_begin_other c h]), transition_begin_other c h]

theorem runLoop_dot_cr (s : List SrcItem) :
    runLoop .dot (SrcItem.byte crByte :: s) =
      ⟨(runLoop .dotCR s).emitted, (runLoop .dotCR s).err,
        (runLoop .dotCR s).state, (runLoop .dotCR s).src⟩ := by
  rw [runLoop_suppress .dot crByte s (by simp)
        (by rw [transition_dot_cr]), transition_dot_cr]

theorem runLoop_dot_other (c : Nat) (s : List SrcItem) (h1 : c ≠ crByte)
    (h2 : c ≠ lfByte) :
    runLoop .dot (SrcItem.byte c :: s) =
      ⟨c :: (runLoop .data s).emitted, (runLoop .data s).err,
        (runLoop .data s).state, (runLoop .data s).src⟩ := by
  rw [runLoop_emit .dot c s (by simp)
        (by rw [transition_dot_other c h1 h2]), transition_dot_other c h1 h2]

theorem runLoop_dotCR_lf (s : List SrcItem) :
    runLoop .dotCR (SrcItem.byte lfByte :: s) = ⟨[], none, .eof, s⟩ := by
  rw [runLoop_suppress .dotCR lfByte s (by simp)
        (by rw [transition_dotCR_lf]), transition_dotCR_lf]
  rw [show ((RState.eof, false).1 : RState) = .eof from rfl, runLoop_state_eof]

theorem runLoop_cr_lf (s : List SrcItem) :
    runLoop .cr (SrcItem.byte lfByte :: s) =
      ⟨lfByte :: (runLoop .beginLine s).emitted, (runLoop .beginLine s).err,
        (runLoop .beginLine s).state, (runLoop .beginLine s).src⟩ := by
  rw [runLoop_emit .cr lfByte s (by simp)
        (by rw [transition_cr_lf]), transition_cr_lf]

theorem runLoop_data_byte_cr (s : List SrcItem) :
    runLoop .data (SrcItem.byte crByte :: s) =
      ⟨crByte :: (runLoop .cr s).emitted, (runLoop .cr s).err,
        (runLoop .cr s).state, (runLoop .cr s).src⟩ := by
  rw [runLoop_emit .data crByte s (by simp)
        (by rw [transition_data_byte_cr]), transition_data_byte_cr]

theorem runLoop_data_other (c : Nat) (s : List SrcItem) (h1 : c ≠ crByte)
    (h2 : c ≠ lfByte) :
    runLoop .data (SrcItem.byte c :: s) =
      ⟨c :: (runLoop .data s).emitted, (runLoop .data s).err,
        (runLoop .data s).state, (runLoop .data s).src⟩ := by
  rw [runLoop_emit .data c s (by simp)
        (by rw [transition_data_other c h1 h2]), transition_data_other c h1 h2]

theorem runLoop_data_byte_lf (s : List SrcItem) :
    runLoop .data (SrcItem.byte lfByte :: s) =
      ⟨lfByte :: (runLoop .beginLine s).emitted, (runLoop .beginLine s).err,
        (runLoop .beginLine s).state, (runLoop .beginLine s).src⟩ := by
  rw [runLoop_emit .data lfByte s (by simp)
        (by rw [transition_data_byte_lf]), transition_data_byte_lf]

theorem runLoop_data_crlf :
    ∀ (cs : List Nat) (rest : List SrcItem), crlfFree cs →
      runLoop .data (toSrc cs ++ SrcItem.byte crByte :: SrcItem.byte lfByte :: rest) =
        ⟨cs ++ crByte :: lfByte :: (runLoop .beginLine rest).emitted,
          (runLoop .beginLine rest).err, (runLoop .beginLine rest).state,
          (runLoop .beginLine rest).src⟩ := by
  intro cs
  induction cs with
  | nil =>
      intro rest h
      simp only [toSrc, List.map_nil, List.nil_append]
      rw [runLoop_data_byte_cr, runLoop_cr_lf]
  | cons c cs ih =>
      intro rest h
      have hc := h c (by simp)
      have hcs : crlfFree cs := fun x hx => h x (by simp [hx])
      simp only [toSrc, List.map_cons, List.cons_append]
      rw [runLoop_data_other c _ hc.1 hc.2]
      have ihr := ih rest hcs
      simp only [toSrc] at ihr
      rw [ihr]

theorem runLoop_line (content : List Nat) (rest : List SrcItem)
    (hfree : crlfFree content) (hne : content ≠ [dotByte]) :
    runLoop .beginLine (toSrc (mkLine content) ++ rest) =
      ⟨decodedLine content ++ (runLoop .beginLine rest).emitted,
        (runLoop .beginLine rest).err, (runLoop .beginLine rest).state,
        (runLoop .beginLine rest).src⟩ := by
  cases content with
  | nil =>
      simp only [mkLine, decodedLine, unstuff, toSrc, List.map_cons, List.map_nil,
        List.nil_append, List.cons_append]
      rw [runLoop_begin_other crByte _ (by decide), runLoop_data_byte_lf]
  | cons c cs =>
      have hc := hfree c (by simp)
      by_cases hdot : c = dotByte
      · subst hdot
        cases cs with
        | nil => exact absurd rfl hne
        | cons c2 cs2 =>
            have hc2 := hfree c2 (by simp)
            have hcs2 : crlfFree cs2 := fun x hx => hfree x (by simp [hx])
            simp only [mkLine, decodedLine, unstuff, if_pos rfl, toSrc,
              List.map_cons, List.cons_append, List.append_assoc]
            rw [runLoop_begin_dot, runLoop_dot_other c2 _ hc2.1 hc2.2]
            dsimp only
            simp only [List.map_append, List.map_cons, List.map_nil,
              List.cons_append, List.nil_append, List.append_assoc]
            have ihr := runLoop_data_crlf cs2 rest hcs2
            simp only [toSrc] at ihr
            rw [ihr]
            simp
      · simp only [mkLine, decodedLine, unstuff, if_neg hdot, toSrc,
          List.map_cons, List.cons_append, List.append_assoc]
        rw [runLoop_begin_other c _ hdot]
        try dsimp only
        simp only [List.map_append, List.map_cons, List.map_nil,
          List.cons_append, List.nil_append, List.append_assoc]
        have ihr := runLoop_data_crlf cs rest (fun x hx => hfree x (by simp [hx]))
        simp only [toSrc] at ihr
        rw [ihr]

theorem runLoop_term (rest : List SrcItem) :
    runLoop .beginLine (toSrc termLine ++ rest) = ⟨[], none, .eof, rest⟩ := by
  simp only [termLine, toSrc, List.map_cons, List.map_nil, List.cons_append,
    List.nil_append]
  rw [runLoop_begin_dot, runLoop_dot_cr, runLoop_dotCR_lf]

theorem runLoop_body (contents : List (List Nat)) (rest : List SrcItem)
    (h : ∀ c ∈ contents, crlfFree c ∧ c ≠ [dotByte]) :
    runLoop .beginLine (toSrc (contents.map mkLine).flatten ++ rest) =
      ⟨(contents.map decodedLine).flatten ++ (runLoop .beginLine rest).emitted,
        (runLoop .beginLine rest).err, (runLoop .beginLine rest).state,
        (runLoop .beginLine rest).src⟩ := by
  induction contents with
  | nil => simp [toSrc]
  | cons c cs ih =>
      obtain ⟨h1, h2⟩ := h c (by simp)
      have hcs : ∀ x ∈ cs, crlfFree x ∧ x ≠ [dotByte] := fun x hx => h x (by simp [hx])
      simp only [List.map_cons, List.flatten_cons, toSrc_append, List.append_assoc]
      rw [runLoop_line c _ h1 h2, ih hcs]
      try simp

/-! ## Decoding a whole message -/

theorem newDataReader_unlimited (srv : Server) (h : srv.MaxMessageBytes ≤ 0) :
    newDataReader srv = ⟨.beginLine, false, 0⟩ := by
  simp only [newDataReader]
  rw [if_neg (by omega)]

theorem readAll_decodes (srv : Server) (k : Nat) (contents : List (List Nat))
    (hsrv : srv.MaxMessageBytes ≤ 0) (hk : 1 ≤ k)
    (hc : ∀ c ∈ contents, crlfFree c ∧ c ≠ [dotByte]) :
    readAll srv k ((toSrc ((contents.map mkLine).flatten ++ termLine)).length + 1)
        (newDataReader srv) (toSrc ((contents.map mkLine).flatten ++ termLine)) =
      ((contents.map decodedLine).flatten, some .eofSignal) := by
  have hnd := newDataReader_unlimited srv hsrv
  have hterm := runLoop_term []
  rw [List.append_nil] at hterm
  have hrun : runLoop (newDataReader srv).state
      (toSrc ((contents.map mkLine).flatten ++ termLine)) =
      ⟨(contents.map decodedLine).flatten, none, .eof, []⟩ := by
    rw [hnd]
    dsimp only
    rw [toSrc_append, runLoop_body contents (toSrc termLine) hc, hterm]
    simp
  exact readAll_of_runLoop_eof srv k hk _ (newDataReader srv) _
    (contents.map decodedLine).flatten [] (by rw [hnd]) (by omega) hrun

/-! ## Dot-stuffing escape/unescape -/

theorem unstuff_stuff (content : List Nat) : unstuff (stuff content) = content := by
  cases content with
  | nil => rfl
  | cons c t =>
      by_cases h : c = dotByte
      · subst h
        simp [stuff, unstuff]
      · simp [stuff, unstuff, h]

theorem stuff_crlfFree (content : List Nat) (h : crlfFree content) :
    crlfFree (stuff content) := by
  cases content with
  | nil => exact h
  | cons c t =>
      by_cases hd : c = dotByte
      · subst hd
        have hs : stuff (dotByte :: t) = dotByte :: dotByte :: t := by
          simp [stuff]
        rw [hs]
        intro x hx
        rw [List.mem_cons] at hx
        rcases hx with hx | hx
        · subst hx
          exact ⟨by decide, by decide⟩
        · exact h x hx
      · simpa [stuff, hd] using h

theorem stuff_ne_term (content : List Nat) : stuff content ≠ [dotByte] := by
  cases content with
  | nil => simp [stuff]
  | cons c t =>
      by_cases hd : c = dotByte
      · subst hd
        simp [stuff]
      · simp [stuff, hd]

theorem decodedLine_stuff (content : List Nat) :
    decodedLine (stuff content) = mkLine content := by
  simp [decodedLine, mkLine, unstuff_stuff]

/-! ## Events of one `Read` -/

theorem fillLoop_log_count (tc : Bool) :
    ∀ (src : List SrcItem) (k : Nat) (st : RState),
      (fillLoop tc k st src).events.count Event.logTimeout =
        (if (fillLoop tc k st src).err = some RErr.dataTimeout then 1 else 0) := by
  intro src
  induction src with
  | nil =>
      intro k st
      by_cases hguard : k = 0 ∨ st = .eof
      · rw [fillLoop_guard tc k st [] hguard]
        simp
      · rw [fillLoop_nil tc k st hguard]
        cases tc <;> simp [armRead]
  | cons item rest ih =>
      intro k st
      by_cases hguard : k = 0 ∨ st = .eof
      · rw [fillLoop_guard tc k st (item :: rest) hguard]
        simp
      · cases item with
        | ioFail e =>
            rw [fillLoop_fail tc k st e rest hguard]
            cases e <;> cases tc <;> simp [armRead, errConvert]
        | byte c =>
            cases he : (transition st c).2 with
            | true =>
                rw [fillLoop_emit tc k st c rest hguard he]
                dsimp only
                rw [List.count_append]
                cases tc <;> simp [armRead, ih]
            | false =>
                rw [fillLoop_suppress tc k st c rest hguard he]
                dsimp only
                rw [List.count_append]
                cases tc <;> simp [armRead, ih]

theorem filter_armRead_true :
    List.filter armOrRead (armRead true) = [Event.armDeadline, Event.readByte] := by
  decide

theorem count_read_armRead_true :
    List.count Event.readByte (armRead true) = 1 := by
  decide

theorem fillLoop_armed :
    ∀ (src : List SrcItem) (k : Nat) (st : RState),
      (fillLoop true k st src).events.filter armOrRead =
        (List.replicate ((fillLoop true k st src).events.count Event.readByte)
          [Event.armDeadline, Event.readByte]).flatten := by
  intro src
  induction src with
  | nil =>
      intro k st
      by_cases hguard : k = 0 ∨ st = .eof
      · rw [fillLoop_guard true k st [] hguard]
        simp
      · rw [fillLoop_nil true k st hguard]
        simp [armRead, armOrRead]
  | cons item rest ih =>
      intro k st
      by_cases hguard : k = 0 ∨ st = .eof
      · rw [fillLoop_guard true k st (item :: rest) hguard]
        simp
      · cases item with
        | ioFail e =>
            rw [fillLoop_fail true k st e rest hguard]
            cases e <;> simp [armRead, armOrRead, errConvert]
        | byte c =>
            cases he : (transition st c).2 with
            | true =>
                rw [fillLoop_emit true k st c rest hguard he]
                dsimp only
                rw [List.filter_append, List.count_append, filter_armRead_true,
                  count_read_armRead_true, ih, Nat.add_comm, List.replicate_succ,
                  List.flatten_cons]
            | false =>
                rw [fillLoop_suppress true k st c rest hguard he]
                dsimp only
                rw [List.filter_append, List.count_append, filter_armRead_true,
                  count_read_armRead_true, ih, Nat.add_comm, List.replicate_succ,
                  List.flatten_cons]

theorem Read_events_eq (srv : Server) (r : dataReader) (blen : Nat)
    (src : List SrcItem) :
    (Read srv r blen src).events = [] ∨
      ∃ k, (Read srv r blen src).events =
        (fillLoop (srv.ReadTimeout != 0) k r.state src).events ∧
        (Read srv r blen src).err = (if (fillLoop (srv.ReadTimeout != 0) k r.state src).err = none ∧
            (fillLoop (srv.ReadTimeout != 0) k r.state src).state = .eof then
          some .eofSignal else (fillLoop (srv.ReadTimeout != 0) k r.state src).err) := by
  by_cases hlim : r.limited = true
  · by_cases hn : r.n ≤ 0
    · left
      rw [Read_tooLarge srv r blen src hlim hn]
    · right
      refine ⟨if (blen : Int) > r.n then r.n.toNat else blen, ?_, ?_⟩ <;>
        rw [Read_limited_pos srv r blen src hlim (by omega)]
  · right
    refine ⟨blen, ?_, ?_⟩ <;>
      rw [Read_unlimited srv r blen src (by simpa using hlim)]

/-! ## Size accounting -/

theorem Read_limited_emit_le (srv : Server) (r : dataReader) (blen : Nat)
    (src : List SrcItem) (hlim : r.limited = true) (hn : 0 < r.n) :
    (Read srv r blen src).emitted.length ≤ blen ∧
      ((Read srv r blen src).emitted.length : Int) ≤ r.n := by
  rw [Read_limited_pos srv r blen src hlim hn]
  dsimp only
  have hlen := fillLoop_emitted_length (srv.ReadTimeout != 0) src
    (if (blen : Int) > r.n then r.n.toNat else blen) r.state
  constructor
  · have hcap : (if (blen : Int) > r.n then r.n.toNat else blen) ≤ blen := by
      split <;> omega
    omega
  · have hcap : ((if (blen : Int) > r.n then r.n.toNat else blen : Nat) : Int) ≤ r.n := by
      split <;> omega
    omega

theorem Read_n_after (srv : Server) (r : dataReader) (blen : Nat)
    (src : List SrcItem) (hlim : r.limited = true) :
    (Read srv r blen src).reader.n = r.n - (Read srv r blen src).emitted.length := by
  by_cases hn : r.n ≤ 0
  · rw [Read_tooLarge srv r blen src hlim hn]
    simp
  · rw [Read_limited_pos srv r blen src hlim (by omega)]

theorem Read_limited_preserved (srv : Server) (r : dataReader) (blen : Nat)
    (src : List SrcItem) : (Read srv r blen src).reader.limited = r.limited := by
  by_cases hlim : r.limited = true
  · by_cases hn : r.n ≤ 0
    · rw [Read_tooLarge srv r blen src hlim hn]
    · rw [Read_limited_pos srv r blen src hlim (by omega), hlim]
  · rw [Read_unlimited srv r blen src (by simpa using hlim)]
    simp only [Bool.not_eq_true] at hlim
    rw [hlim]

theorem Read_n_le (srv : Server) (r : dataReader) (blen : Nat)
    (src : List SrcItem) : (Read srv r blen src).reader.n ≤ r.n := by
  by_cases hlim : r.limited = true
  · rw [Read_n_after srv r blen src hlim]
    have : (0 : Int) ≤ (Read srv r blen src).emitted.length := by positivity
    omega
  · rw [Read_unlimited srv r blen src (by simpa using hlim)]

theorem readAll_emitted_le (srv : Server) (k : Nat) :
    ∀ (fuel : Nat) (r : dataReader) (src : List SrcItem),
      r.limited = true → 0 ≤ r.n →
      ((readAll srv k fuel r src).1.length : Int) ≤ r.n := by
  intro fuel
  induction fuel with
  | zero =>
      intro r src _ hn
      simp only [readAll, List.length_nil]
      exact_mod_cast hn
  | succ fuel ih =>
      intro r src hlim hn
      rw [readAll]
      by_cases hn0 : r.n ≤ 0
      · rw [Read_tooLarge srv r k src hlim hn0]
        dsimp only
        simpa using hn
      · have hpos : 0 < r.n := by omega
        have hemit := (Read_limited_emit_le srv r k src hlim hpos).2
        have hafter := Read_n_after srv r k src hlim
        cases herr : (Read srv r k src).err with
        | some e =>
            simp only [herr]
            exact hemit
        | none =>
            simp only [herr]
            have hrec := ih (Read srv r k src).reader (Read srv r k src).src
              (by rw [Read_limited_preserved srv r k src]; exact hlim)
              (by rw [hafter]; omega)
            try dsimp only
            rw [List.length_append]
            rw [hafter] at hrec
            push_cast
            push_cast at hrec hemit
            omega

/-! ## Reaching the terminator through `Read` -/

theorem Read_limited_reach_eof (srv : Server) (r : dataReader) (blen : Nat)
    (src : List SrcItem) (hlim : r.limited = true) (hst : r.state ≠ .eof)
    (heof : (Read srv r blen src).reader.state = .eof) :
    0 < (Read srv r blen src).reader.n := by
  by_cases hn : r.n ≤ 0
  · rw [Read_tooLarge srv r blen src hlim hn] at heof
    exact absurd heof hst
  · have hpos : 0 < r.n := by omega
    rw [Read_limited_pos srv r blen src hlim hpos] at heof ⊢
    dsimp only at heof ⊢
    obtain ⟨-, hlt⟩ := fillLoop_reach_eof (srv.ReadTimeout != 0) src
      (if (blen : Int) > r.n then r.n.toNat else blen) r.state hst heof
    have hcap : ((if (blen : Int) > r.n then r.n.toNat else blen : Nat) : Int) ≤ r.n := by
      split <;> omega
    omega

theorem Read_eof_err (srv : Server) (r : dataReader) (blen : Nat)
    (src : List SrcItem) (hst : r.state ≠ .eof)
    (heof : (Read srv r blen src).reader.state = .eof) :
    (Read srv r blen src).err = some .eofSignal := by
  by_cases hlim : r.limited = true
  · by_cases hn : r.n ≤ 0
    · rw [Read_tooLarge srv r blen src hlim hn] at heof
      exact absurd heof hst
    · rw [Read_limited_pos srv r blen src hlim (by omega)] at heof ⊢
      dsimp only at heof ⊢
      obtain ⟨herrn, -⟩ := fillLoop_reach_eof (srv.ReadTimeout != 0) src
        (if (blen : Int) > r.n then r.n.toNat else blen) r.state hst heof
      rw [if_pos ⟨herrn, heof⟩]
  · rw [Read_unlimited srv r blen src (by simpa using hlim)] at heof ⊢
    dsimp only at heof ⊢
    obtain ⟨herrn, -⟩ := fillLoop_reach_eof (srv.ReadTimeout != 0) src blen
      r.state hst heof
    rw [if_pos ⟨herrn, heof⟩]

theorem Read_at_eof (srv : Server) (r : dataReader) (blen : Nat)
    (src : List SrcItem) (hst : r.state = .eof)
    (hn : r.limited = true → 0 < r.n) :
    Read srv r blen src = ⟨[], some .eofSignal, r, src, []⟩ := by
  obtain ⟨rst, rlim, rn⟩ := r
  dsimp only at hst hn
  subst hst
  cases rlim with
  | false =>
      rw [Read_unlimited srv ⟨.eof, false, rn⟩ blen src rfl]
      rw [fillLoop_state_eof]
      simp
  | true =>
      have hpos : 0 < rn := hn rfl
      rw [Read_limited_pos srv ⟨.eof, true, rn⟩ blen src rfl hpos]
      rw [fillLoop_state_eof]
      simp

/-! ## Error and event behaviour of one `Read` -/

theorem Read_log_count (srv : Server) (r : dataReader) (blen : Nat)
    (src : List SrcItem) :
    (Read srv r blen src).events.count Event.logTimeout =
      (if (Read srv r blen src).err = some RErr.dataTimeout then 1 else 0) := by
  by_cases hlim : r.limited = true
  · by_cases hn : r.n ≤ 0
    · rw [Read_tooLarge srv r blen src hlim hn]
      simp
    · rw [Read_limited_pos srv r blen src hlim (by omega)]
      dsimp only
      rw [fillLoop_log_count]
      cases he : (fillLoop (srv.ReadTimeout != 0)
          (if (blen : Int) > r.n then r.n.toNat else blen) r.state src).err with
      | none =>
          by_cases hst : (fillLoop (srv.ReadTimeout != 0)
              (if (blen : Int) > r.n then r.n.toNat else blen) r.state src).state = .eof <;>
            simp [he, hst]
      | some e => simp [he]
  · rw [Read_unlimited srv r blen src (by simpa using hlim)]
    dsimp only
    rw [fillLoop_log_count]
    cases he : (fillLoop (srv.ReadTimeout != 0) blen r.state src).err with
    | none =>
        by_cases hst : (fillLoop (srv.ReadTimeout != 0) blen r.state src).state = .eof <;>
          simp [he, hst]
    | some e => simp [he]

theorem Read_armed (srv : Server) (r : dataReader) (blen : Nat)
    (src : List SrcItem) (htc : srv.ReadTimeout ≠ 0) :
    (Read srv r blen src).events.filter armOrRead =
      (List.replicate ((Read srv r blen src).events.count Event.readByte)
        [Event.armDeadline, Event.readByte]).flatten := by
  have htc' : (srv.ReadTimeout != 0) = true := by simpa using htc
  by_cases hlim : r.limited = true
  · by_cases hn : r.n ≤ 0
    · rw [Read_tooLarge srv r blen src hlim hn]
      simp
    · rw [Read_limited_pos srv r blen src hlim (by omega)]
      dsimp only
      rw [htc', fillLoop_armed]
  · rw [Read_unlimited srv r blen src (by simpa using hlim)]
    dsimp only
    rw [htc', fillLoop_armed]

theorem Read_first_fail (srv : Server) (r : dataReader) (blen : Nat)
    (e : IOFailure) (rest : List SrcItem) (hst : r.state ≠ .eof)
    (hn : r.limited = true → 0 < r.n) (hb : 1 ≤ blen) :
    Read srv r blen (SrcItem.ioFail e :: rest) =
      ⟨[], some (errConvert e).1, r, rest,
        armRead (srv.ReadTimeout != 0) ++ (errConvert e).2⟩ := by
  obtain ⟨rst, rlim, rn⟩ := r
  dsimp only at hst hn ⊢
  cases rlim with
  | false =>
      rw [Read_unlimited srv ⟨rst, false, rn⟩ blen (SrcItem.ioFail e :: rest) rfl]
      rw [fillLoop_fail _ blen rst e rest (by
        rintro (hcap | hcap)
        · omega
        · exact hst hcap)]
      dsimp only
      rw [if_neg (by simp)]
      try simp
  | true =>
      have hpos : 0 < rn := hn rfl
      rw [Read_limited_pos srv ⟨rst, true, rn⟩ blen (SrcItem.ioFail e :: rest) rfl hpos]
      dsimp only
      rw [fillLoop_fail _ _ rst e rest (by
        rintro (hcap | hcap)
        · revert hcap
          split <;> omega
        · exact hst hcap)]
      dsimp only
      rw [if_neg (by simp)]
      try simp

/-! ## The claims -/

/-- C1: for a stream of well-formed non-terminator lines followed by the
terminator line `.\r\n` (possibly immediately, i.e. an empty message),
repeated `Read` calls emit exactly the dot-unstuffed bytes preceding the
marker and then the end-of-stream signal `io.EOF`; no marker byte appears in
the output, and (second conjunct) the `Read` call that consumes the
terminator returns its bytes together with the end-of-stream signal. -/
theorem c1_terminator_detection :
    (∀ (srv : Server) (k : Nat) (contents : List (List Nat)),
        srv.MaxMessageBytes ≤ 0 → 1 ≤ k →
        (∀ c ∈ contents, crlfFree c ∧ c ≠ [dotByte]) →
        readAll srv k
            ((toSrc ((contents.map mkLine).flatten ++ termLine)).length + 1)
            (newDataReader srv)
            (toSrc ((contents.map mkLine).flatten ++ termLine)) =
          ((contents.map decodedLine).flatten, some .eofSignal)) ∧
    (∀ (srv : Server) (r : dataReader) (blen : Nat) (src : List SrcItem),
        r.state ≠ .eof → (Read srv r blen src).reader.state = .eof →
        (Read srv r blen src).err = some .eofSignal) :=
  ⟨readAll_decodes, Read_eof_err⟩

/-- Witness for C1 at the two-line message "hi\r\n" with buffer size 4,
and at a terminator-only stream. -/
theorem c1_terminator_detection_witness :
    readAll ⟨0, 0⟩ 4
        ((toSrc ((([[104, 105]]).map mkLine).flatten ++ termLine)).length + 1)
        (newDataReader ⟨0, 0⟩)
        (toSrc ((([[104, 105]]).map mkLine).flatten ++ termLine)) =
      ((([[104, 105]]).map decodedLine).flatten, some .eofSignal) ∧
    (Read ⟨0, 0⟩ ⟨.beginLine, false, 0⟩ 8 (toSrc termLine)).err = some .eofSignal :=
  ⟨c1_terminator_detection.1 ⟨0, 0⟩ 4 [[104, 105]] (by decide) (by decide) (by decide),
    c1_terminator_detection.2 ⟨0, 0⟩ ⟨.beginLine, false, 0⟩ 8 (toSrc termLine)
      (by decide) (by decide)⟩

/-- C2: dot-stuffing each line of a message (extra `.` before a line
starting with `.`), appending the terminator line, and decoding the result
through repeated `Read` calls yields exactly the original message bytes. -/
theorem c2_roundtrip (srv : Server) (k : Nat) (contents : List (List Nat))
    (hsrv : srv.MaxMessageBytes ≤ 0) (hk : 1 ≤ k)
    (hc : ∀ c ∈ contents, crlfFree c) :
    readAll srv k
        ((toSrc ((contents.map fun c => mkLine (stuff c)).flatten ++ termLine)).length + 1)
        (newDataReader srv)
        (toSrc ((contents.map fun c => mkLine (stuff c)).flatten ++ termLine)) =
      ((contents.map mkLine).flatten, some .eofSignal) := by
  have hmap : (contents.map fun c => mkLine (stuff c)) =
      (contents.map stuff).map mkLine := by
    rw [List.map_map]
    rfl
  have hstuffed : ∀ c ∈ contents.map stuff, crlfFree c ∧ c ≠ [dotByte] := by
    intro c hcm
    rw [List.mem_map] at hcm
    obtain ⟨a, ha, rfl⟩ := hcm
    exact ⟨stuff_crlfFree a (hc a ha), stuff_ne_term a⟩
  have hdl : (contents.map stuff).map decodedLine = contents.map mkLine := by
    rw [List.map_map]
    exact List.map_congr_left fun a _ => decodedLine_stuff a
  have hmain := readAll_decodes srv k (contents.map stuff) hsrv hk hstuffed
  rw [hmap, ← hdl]
  exact hmain

/-- Witness for C2 at the one-line message ".a\r\n" (whose wire form is
"..a\r\n.\r\n") with buffer size 3. -/
theorem c2_roundtrip_witness :
    readAll ⟨0, 0⟩ 3
        ((toSrc ((([[46, 97]]).map fun c => mkLine (stuff c)).flatten ++ termLine)).length + 1)
        (newDataReader ⟨0, 0⟩)
        (toSrc ((([[46, 97]]).map fun c => mkLine (stuff c)).flatten ++ termLine)) =
      ((([[46, 97]]).map mkLine).flatten, some .eofSignal) :=
  c2_roundtrip ⟨0, 0⟩ 3 [[46, 97]] (by decide) (by decide) (by decide)

/-- C3 counterexample: the line `.foo\r\n` does NOT decode unchanged; the
decoder elides the leading dot and emits `foo\r\n` (the claim as stated is
false at this input). -/
theorem c3_counterexample_dot_not_kept :
    (readAll ⟨0, 0⟩ 16 12 (newDataReader ⟨0, 0⟩)
        (toSrc ([dotByte, 102, 111, 111, crByte, lfByte] ++ termLine))).1 =
      [102, 111, 111, crByte, lfByte] ∧
    (readAll ⟨0, 0⟩ 16 12 (newDataReader ⟨0, 0⟩)
        (toSrc ([dotByte, 102, 111, 111, crByte, lfByte] ++ termLine))).1 ≠
      [dotByte, 102, 111, 111, crByte, lfByte] := by
  constructor <;> decide

/-- C3 (amended): an input line `.foo\r\n` whose content after the leading
dot is nonempty (so the line is not the bare terminator) decodes to
`foo\r\n`: in the Dot state a byte other than `\r` and `\n` causes only
that byte to be emitted, the suppressed leading dot is never re-emitted, so
exactly one leading dot is removed from every line starting with a dot. -/
theorem c3_dot_elision (srv : Server) (k : Nat) (t : List Nat)
    (hsrv : srv.MaxMessageBytes ≤ 0) (hk : 1 ≤ k) (ht : t ≠ [])
    (hfree : crlfFree t) :
    readAll srv k
        ((toSrc ((([dotByte :: t]).map mkLine).flatten ++ termLine)).length + 1)
        (newDataReader srv)
        (toSrc ((([dotByte :: t]).map mkLine).flatten ++ termLine)) =
      (t ++ [crByte, lfByte], some .eofSignal) := by
  have hc : ∀ c ∈ [dotByte :: t], crlfFree c ∧ c ≠ [dotByte] := by
    intro c hcm
    rw [List.mem_singleton] at hcm
    subst hcm
    refine ⟨?_, ?_⟩
    · intro x hx
      rw [List.mem_cons] at hx
      rcases hx with rfl | hx
      · exact ⟨by decide, by decide⟩
      · exact hfree x hx
    · simp [ht]
  have hmain := readAll_decodes srv k [dotByte :: t] hsrv hk hc
  simpa [decodedLine, unstuff] using hmain

/-- Witness for the amended C3 at the line ".f\r\n". -/
theorem c3_dot_elision_witness :
    readAll ⟨0, 0⟩ 9
        ((toSrc ((([dotByte :: [102]]).map mkLine).flatten ++ termLine)).length + 1)
        (newDataReader ⟨0, 0⟩)
        (toSrc ((([dotByte :: [102]]).map mkLine).flatten ++ termLine)) =
      ([102] ++ [crByte, lfByte], some .eofSignal) :=
  c3_dot_elision ⟨0, 0⟩ 9 [102] (by decide) (by decide) (by decide) (by decide)

/-- C4: size enforcement.  (1) With a positive remaining budget, one `Read`
emits at most `min(len b, remaining)` bytes; (2) the remaining counter never
increases; (3) once `remaining ≤ 0`, `Read` fails with the size-exceeded
error, unchanged state, and consumes no input; (4) a decoder built with
maximum `m > 0` never emits more than `m` bytes across all calls. -/
theorem c4_size_enforcement :
    (∀ (srv : Server) (r : dataReader) (blen : Nat) (src : List SrcItem),
        r.limited = true → 0 < r.n →
        (Read srv r blen src).emitted.length ≤ blen ∧
          ((Read srv r blen src).emitted.length : Int) ≤ r.n) ∧
    (∀ (srv : Server) (r : dataReader) (blen : Nat) (src : List SrcItem),
        (Read srv r blen src).reader.n ≤ r.n) ∧
    (∀ (srv : Server) (r : dataReader) (blen : Nat) (src : List SrcItem),
        r.limited = true → r.n ≤ 0 →
        Read srv r blen src = ⟨[], some .dataTooLarge, r, src, []⟩) ∧
    (∀ (srv : Server) (k fuel : Nat) (src : List SrcItem),
        0 < srv.MaxMessageBytes →
        ((readAll srv k fuel (newDataReader srv) src).1.length : Int) ≤
          srv.MaxMessageBytes) := by
  refine ⟨Read_limited_emit_le, Read_n_le, Read_tooLarge, ?_⟩
  intro srv k fuel src hpos
  have hnd : newDataReader srv = ⟨.beginLine, true, srv.MaxMessageBytes⟩ := by
    simp only [newDataReader]
    rw [if_pos hpos]
  have hmain := readAll_emitted_le srv k fuel (newDataReader srv) src
    (by rw [hnd]) (by rw [hnd]; dsimp only; omega)
  rw [hnd] at hmain
  rw [hnd]
  exact hmain

/-- Witness for C4: a limit of 3 on the message "hello\r\n.\r\n". -/
theorem c4_size_enforcement_witness :
    ((Read ⟨3, 0⟩ ⟨.beginLine, true, 3⟩ 16
        (toSrc ([104, 101, 108, 108, 111, crByte, lfByte] ++ termLine))).emitted.length ≤ 16 ∧
      ((Read ⟨3, 0⟩ ⟨.beginLine, true, 3⟩ 16
        (toSrc ([104, 101, 108, 108, 111, crByte, lfByte] ++ termLine))).emitted.length : Int) ≤ 3) ∧
    (Read ⟨3, 0⟩ ⟨.beginLine, true, 3⟩ 16
        (toSrc ([104, 101, 108, 108, 111, crByte, lfByte] ++ termLine))).reader.n ≤ 3 ∧
    Read ⟨3, 0⟩ ⟨.data, true, 0⟩ 16 (toSrc [97]) =
      ⟨[], some .dataTooLarge, ⟨.data, true, 0⟩, toSrc [97], []⟩ ∧
    ((readAll ⟨3, 0⟩ 16 20 (newDataReader ⟨3, 0⟩)
        (toSrc ([104, 101, 108, 108, 111, crByte, lfByte] ++ termLine))).1.length : Int) ≤ 3 :=
  ⟨c4_size_enforcement.1 ⟨3, 0⟩ ⟨.beginLine, true, 3⟩ 16 _ rfl (by decide),
    c4_size_enforcement.2.1 ⟨3, 0⟩ ⟨.beginLine, true, 3⟩ 16 _,
    c4_size_enforcement.2.2.1 ⟨3, 0⟩ ⟨.data, true, 0⟩ 16 (toSrc [97]) rfl (by decide),
    c4_size_enforcement.2.2.2 ⟨3, 0⟩ 16 20 _ (by decide)⟩

/-- C5: the dot-stuffed line `..foo\r\n` decodes to `.foo\r\n`: exactly one
leading dot is removed, the second dot being emitted from the Dot state. -/
theorem c5_escaped_dot (srv : Server) (k : Nat) (foo : List Nat)
    (hsrv : srv.MaxMessageBytes ≤ 0) (hk : 1 ≤ k) (hfree : crlfFree foo) :
    readAll srv k
        ((toSrc ((([dotByte :: dotByte :: foo]).map mkLine).flatten ++ termLine)).length + 1)
        (newDataReader srv)
        (toSrc ((([dotByte :: dotByte :: foo]).map mkLine).flatten ++ termLine)) =
      (dotByte :: foo ++ [crByte, lfByte], some .eofSignal) := by
  have hc : ∀ c ∈ [dotByte :: dotByte :: foo], crlfFree c ∧ c ≠ [dotByte] := by
    intro c hcm
    rw [List.mem_singleton] at hcm
    subst hcm
    refine ⟨?_, by simp⟩
    intro x hx
    rw [List.mem_cons] at hx
    rcases hx with rfl | hx
    · exact ⟨by decide, by decide⟩
    · rw [List.mem_cons] at hx
      rcases hx with rfl | hx
      · exact ⟨by decide, by decide⟩
      · exact hfree x hx
  have hmain := readAll_decodes srv k [dotByte :: dotByte :: foo] hsrv hk hc
  simpa [decodedLine, unstuff] using hmain

/-- Witness for C5 at the line "..foo\r\n". -/
theorem c5_escaped_dot_witness :
    readAll ⟨0, 0⟩ 7
        ((toSrc ((([dotByte :: dotByte :: [102, 111, 111]]).map mkLine).flatten ++
            termLine)).length + 1)
        (newDataReader ⟨0, 0⟩)
        (toSrc ((([dotByte :: dotByte :: [102, 111, 111]]).map mkLine).flatten ++
            termLine)) =
      (dotByte :: [102, 111, 111] ++ [crByte, lfByte], some .eofSignal) :=
  c5_escaped_dot ⟨0, 0⟩ 7 [102, 111, 111] (by decide) (by decide) (by decide)

/-- C6: (1) every `Read` records the timeout diagnostic exactly once when it
fails with `ErrDataTimeout` and never otherwise; (2) when a read timeout is
configured, a deadline is armed on the source immediately before every
single-byte read; (3) a single-byte read failing with a network timeout
makes `Read` fail with `ErrDataTimeout` (not the generic I/O error), with
no bytes emitted. -/
theorem c6_timeout_conversion :
    (∀ (srv : Server) (r : dataReader) (blen : Nat) (src : List SrcItem),
        (Read srv r blen src).events.count Event.logTimeout =
          (if (Read srv r blen src).err = some RErr.dataTimeout then 1 else 0)) ∧
    (∀ (srv : Server) (r : dataReader) (blen : Nat) (src : List SrcItem),
        srv.ReadTimeout ≠ 0 →
        (Read srv r blen src).events.filter armOrRead =
          (List.replicate ((Read srv r blen src).events.count Event.readByte)
            [Event.armDeadline, Event.readByte]).flatten) ∧
    (∀ (srv : Server) (r : dataReader) (blen : Nat) (rest : List SrcItem),
        r.state ≠ .eof → (r.limited = true → 0 < r.n) → 1 ≤ blen →
        (Read srv r blen (SrcItem.ioFail .timeout :: rest)).err = some .dataTimeout ∧
          (Read srv r blen (SrcItem.ioFail .timeout :: rest)).emitted = []) := by
  refine ⟨Read_log_count, Read_armed, ?_⟩
  intro srv r blen rest hst hn hb
  rw [Read_first_fail srv r blen .timeout rest hst hn hb]
  exact ⟨rfl, rfl⟩

/-- Witness for C6 with a configured timeout and a source that times out on
the first read. -/
theorem c6_timeout_conversion_witness :
    (Read ⟨0, 5⟩ ⟨.beginLine, false, 0⟩ 4 [SrcItem.ioFail .timeout]).events.count
        Event.logTimeout =
      (if (Read ⟨0, 5⟩ ⟨.beginLine, false, 0⟩ 4 [SrcItem.ioFail .timeout]).err =
          some RErr.dataTimeout then 1 else 0) ∧
    (Read ⟨0, 5⟩ ⟨.beginLine, false, 0⟩ 4 [SrcItem.ioFail .timeout]).events.filter
        armOrRead =
      (List.replicate ((Read ⟨0, 5⟩ ⟨.beginLine, false, 0⟩ 4
          [SrcItem.ioFail .timeout]).events.count Event.readByte)
        [Event.armDeadline, Event.readByte]).flatten ∧
    (Read ⟨0, 5⟩ ⟨.beginLine, false, 0⟩ 4 [SrcItem.ioFail .timeout]).err =
        some .dataTimeout ∧
      (Read ⟨0, 5⟩ ⟨.beginLine, false, 0⟩ 4 [SrcItem.ioFail .timeout]).emitted = [] :=
  ⟨c6_timeout_conversion.1 ⟨0, 5⟩ ⟨.beginLine, false, 0⟩ 4 [SrcItem.ioFail .timeout],
    c6_timeout_conversion.2.1 ⟨0, 5⟩ ⟨.beginLine, false, 0⟩ 4 [SrcItem.ioFail .timeout]
      (by decide),
    c6_timeout_conversion.2.2 ⟨0, 5⟩ ⟨.beginLine, false, 0⟩ 4 [] (by decide)
      (by intro h; exact absurd h (by decide)) (by decide)⟩

/-- C7: a single-byte read failing before the terminator state makes `Read`
fail with the converted error: `io.EOF` becomes `io.ErrUnexpectedEOF`
(never the normal end-of-stream signal), and any other I/O error is
propagated unchanged; the reader state and remaining budget are untouched. -/
theorem c7_premature_close :
    (∀ (srv : Server) (r : dataReader) (blen : Nat) (e : IOFailure)
        (rest : List SrcItem),
        r.state ≠ .eof → (r.limited = true → 0 < r.n) → 1 ≤ blen →
        Read srv r blen (SrcItem.ioFail e :: rest) =
          ⟨[], some (errConvert e).1, r, rest,
            armRead (srv.ReadTimeout != 0) ++ (errConvert e).2⟩) ∧
    (errConvert .eof).1 = .unexpectedEOF ∧
    (∀ tag, (errConvert (.other tag)).1 = .otherErr tag) :=
  ⟨Read_first_fail, rfl, fun _ => rfl⟩

/-- Witness for C7 at a source closing before the terminator, and at an
abstract unrelated I/O error. -/
theorem c7_premature_close_witness :
    Read ⟨0, 0⟩ ⟨.data, false, 0⟩ 4 [SrcItem.ioFail .eof] =
      ⟨[], some (errConvert .eof).1, ⟨.data, false, 0⟩, [],
        armRead ((0 : Int) != 0) ++ (errConvert .eof).2⟩ ∧
    Read ⟨0, 0⟩ ⟨.data, false, 0⟩ 4 [SrcItem.ioFail (.other 7)] =
      ⟨[], some (errConvert (.other 7)).1, ⟨.data, false, 0⟩, [],
        armRead ((0 : Int) != 0) ++ (errConvert (.other 7)).2⟩ ∧
    (errConvert .eof).1 = .unexpectedEOF ∧ (errConvert (.other 7)).1 = .otherErr 7 :=
  ⟨c7_premature_close.1 ⟨0, 0⟩ ⟨.data, false, 0⟩ 4 .eof [] (by decide)
      (by intro h; exact absurd h (by decide)) (by decide),
    c7_premature_close.1 ⟨0, 0⟩ ⟨.data, false, 0⟩ 4 (.other 7) [] (by decide)
      (by intro h; exact absurd h (by decide)) (by decide),
    c7_premature_close.2.1, c7_premature_close.2.2 7⟩

/-- C8: once the decoder is in the terminator state (with a remaining budget
that is positive whenever a limit is configured, which the second conjunct
shows is the only reachable situation when the terminator is newly reached),
every further `Read` returns zero bytes with the end-of-stream signal,
leaves the reader untouched, consumes nothing from the source, and performs
no reads (empty event trace). -/
theorem c8_idempotent_termination :
    (∀ (srv : Server) (r : dataReader) (blen : Nat) (src : List SrcItem),
        r.state = .eof → (r.limited = true → 0 < r.n) →
        Read srv r blen src = ⟨[], some .eofSignal, r, src, []⟩) ∧
    (∀ (srv : Server) (r : dataReader) (blen : Nat) (src : List SrcItem),
        r.limited = true → r.state ≠ .eof →
        (Read srv r blen src).reader.state = .eof →
        0 < (Read srv r blen src).reader.n) :=
  ⟨Read_at_eof, fun srv r blen src hlim hst heof =>
    Read_limited_reach_eof srv r blen src hlim hst heof⟩

/-- Witness for C8 at a terminated unlimited reader with pending source
bytes, and a limited reader that newly reaches the terminator. -/
theorem c8_idempotent_termination_witness :
    Read ⟨0, 0⟩ ⟨.eof, false, 0⟩ 4 (toSrc [97, 98]) =
      ⟨[], some .eofSignal, ⟨.eof, false, 0⟩, toSrc [97, 98], []⟩ ∧
    0 < (Read ⟨9, 0⟩ ⟨.beginLine, true, 9⟩ 8 (toSrc termLine)).reader.n :=
  ⟨c8_idempotent_termination.1 ⟨0, 0⟩ ⟨.eof, false, 0⟩ 4 (toSrc [97, 98]) rfl
      (by intro h; exact absurd h (by decide)),
    c8_idempotent_termination.2 ⟨9, 0⟩ ⟨.beginLine, true, 9⟩ 8 (toSrc termLine) rfl
      (by decide) (by decide)⟩

/-- C9: for a size-limited reader with `remaining ≤ 0`, `Read` returns
`(0, ErrDataTooLarge)` before anything else happens — regardless of the
machine state (terminator state included) and even with an empty buffer —
leaving the reader, the source, and the event trace untouched. -/
theorem c9_size_check_precedence (srv : Server) (r : dataReader) (blen : Nat)
    (src : List SrcItem) (hlim : r.limited = true) (hn : r.n ≤ 0) :
    Read srv r blen src = ⟨[], some .dataTooLarge, r, src, []⟩ :=
  Read_tooLarge srv r blen src hlim hn

/-- Witness for C9 at a reader in the terminator state with an empty buffer. -/
theorem c9_size_check_precedence_witness :
    Read ⟨5, 0⟩ ⟨.eof, true, 0⟩ 0 [SrcItem.byte 97] =
      ⟨[], some .dataTooLarge, ⟨.eof, true, 0⟩, [SrcItem.byte 97], []⟩ :=
  c9_size_check_precedence ⟨5, 0⟩ ⟨.eof, true, 0⟩ 0 [SrcItem.byte 97] rfl (by decide)

/-- C10: `Temporary` holds exactly for the 4xx class (for Go's truncating
division, `Code/100 == 4` is equivalent to `400 ≤ Code < 500`); in
particular the read-timeout error (451) is temporary and the size-exceeded
error (552) is not. -/
theorem c10_temporary_iff (err : SMTPError) :
    (err.Temporary = true ↔ 400 ≤ err.Code ∧ err.Code < 500) ∧
      ErrDataTimeout.Temporary = true ∧ ErrDataTooLarge.Temporary = false := by
  refine ⟨?_, by decide, by decide⟩
  simp only [SMTPError.Temporary, beq_iff_eq]
  rcases le_or_lt 0 err.Code with h | h
  · rw [Int.tdiv_eq_ediv h (by norm_num)]
    omega
  · constructor
    · intro heq
      exfalso
      have hle : Int.tdiv err.Code 100 ≤ 0 := by
        have hnn : 0 ≤ Int.tdiv (-err.Code) 100 :=
          Int.tdiv_nonneg (by omega) (by norm_num)
        rw [Int.neg_tdiv] at hnn
        omega
      omega
    · intro hc
      omega

/-- Witness for C10 at the two canonical error values. -/
theorem c10_temporary_iff_witness :
    ErrDataTimeout.Temporary = true ∧ ErrDataTooLarge.Temporary = false :=
  ⟨(c10_temporary_iff ErrDataTimeout).2.1, (c10_temporary_iff ErrDataTooLarge).2.2⟩

end GoSmtp

